import Mathlib

/-!
Verification development for the gulp-importer substitution engine
(`src/lib/index.ts`).  Content strings are modelled as `List Char`
(decoded text; the `utf-8` default decode/encode boundary is the identity at
this level).  Node / JS standard-library behaviour that the engine delegates
to (path resolution, the configured regular expression, the filesystem) is
packaged in an `Env` record; concrete instantiations used for witnesses are
executable.  Fallible operations return `Except Err`.
-/

namespace GulpImporter

/-- JS `String.prototype.replace` with a plain-string pattern: replace the
first occurrence of `pat` in `s` by `rep`; if `pat` does not occur, `s` is
returned unchanged.  The `$`-doubling in the source
(`dContent.replace(/\$/g, "$$$$")`) makes the JS replacement literal, so the
model inserts `rep` verbatim. -/
def replaceFirst : List Char → List Char → List Char → List Char
  | [], pat, rep => if pat.isPrefixOf ([] : List Char) then rep else []
  | c :: t, pat, rep =>
    if pat.isPrefixOf (c :: t) then rep ++ (c :: t).drop pat.length
    else c :: replaceFirst t pat rep

/-- Whether `pat` occurs as a contiguous substring of `s`. -/
def occursSub : List Char → List Char → Bool
  | pat, [] => pat.isPrefixOf ([] : List Char)
  | pat, c :: t => pat.isPrefixOf (c :: t) || occursSub pat t

/-- `pat` first occurs in `s` exactly at index `k`. -/
def firstMatchAt (s pat : List Char) (k : Nat) : Prop :=
  pat.isPrefixOf (s.drop k) ∧ ∀ i, i < k → ¬ pat.isPrefixOf (s.drop i)

instance (s pat : List Char) (k : Nat) : Decidable (firstMatchAt s pat k) := by
  unfold firstMatchAt; infer_instance

/-- JS `String.prototype.startsWith`, computed structurally on the
character lists. -/
def strStartsWith (s pre : String) : Bool := pre.toList.isPrefixOf s.toList

/-- JS `String.prototype.trim` (restricted to the ASCII whitespace the
repository's directives can contain). -/
def isWsChar (c : Char) : Bool :=
  c = Char.ofNat 32 || c = Char.ofNat 9 || c = Char.ofNat 10 ||
  c = Char.ofNat 13 || c = Char.ofNat 11 || c = Char.ofNat 12

/-- JS `value.trim()`. -/
def trimStr (s : String) : String :=
  String.mk (((s.toList.dropWhile isWsChar).reverse.dropWhile isWsChar).reverse)

/-- UTF-8 byte sequence of one character (`Buffer.from(value)` uses UTF-8). -/
def utf8Bytes (c : Char) : List Nat :=
  let n := c.toNat
  if n < 128 then [n]
  else if n < 2048 then [192 + n / 64, 128 + n % 64]
  else if n < 65536 then [224 + n / 4096, 128 + n / 64 % 64, 128 + n % 64]
  else [240 + n / 262144, 128 + n / 4096 % 64, 128 + n / 64 % 64, 128 + n % 64]

/-- UTF-8 bytes of a string. -/
def strBytes (s : String) : List Nat := s.toList.flatMap utf8Bytes

/-- The standard base64 alphabet. -/
def b64Alphabet : List Char :=
  "ABCDEFGHIJKLMNOPQRSTUVWXYZabcdefghijklmnopqrstuvwxyz0123456789+/".toList

/-- Sextet to base64 character. -/
def b64Char (n : Nat) : Char := b64Alphabet.getD n (Char.ofNat 61)

/-- Base64 encoding of a byte list, with `=` padding. -/
def base64Go : List Nat → List Char
  | [] => []
  | [b1] => [b64Char (b1 / 4), b64Char (b1 % 4 * 16), Char.ofNat 61, Char.ofNat 61]
  | [b1, b2] =>
    [b64Char (b1 / 4), b64Char (b1 % 4 * 16 + b2 / 16), b64Char (b2 % 16 * 4),
      Char.ofNat 61]
  | b1 :: b2 :: b3 :: rest =>
    b64Char (b1 / 4) :: b64Char (b1 % 4 * 16 + b2 / 16) ::
    b64Char (b2 % 16 * 4 + b3 / 64) :: b64Char (b3 % 64) :: base64Go rest

/-- `Importer.encode`: `Buffer.from(value).toString('base64')`. -/
def encodeB64 (s : String) : String := String.mk (base64Go (strBytes s))

/-- Association-list lookup (JS object property access). -/
def lookupA {β : Type} (l : List (String × β)) (k : String) : Option β :=
  (l.find? (fun e => e.fst = k)).map Prod.snd

/-- Overwrite the value stored at an existing key, keeping its position
(JS property assignment on an existing key). -/
def setA {β : Type} : List (String × β) → String → β → List (String × β)
  | [], _, _ => []
  | e :: t, k, v => if e.fst = k then (k, v) :: t else e :: setA t k v

/-- Number of entries of an association list carrying key `k`. -/
def countK {β : Type} (l : List (String × β)) (k : String) : Nat :=
  (l.filter (fun e => e.fst = k)).length

/-- The `dependencyOutput` policy. -/
inductive DepOutput where
  | primary
  | dependant
  | all
deriving DecidableEq, Repr

/-- The configuration fields of `ImporterOptions` that the engine consults
after construction (the regex pattern, capture-group index and encoding are
folded into `Env.scan` and the text-level model). -/
structure Opts where
  importOnce : Bool
  importRecursively : Bool
  dependencyOutput : DepOutput
  disableLog : Bool
  detailedLog : Bool
  requireExtension : Bool
deriving DecidableEq, Repr

/-- The identity fields of a vinyl `File` that the engine reads
(`cwd`, `base`, `path`); also the entity descriptor stored in the cache. -/
structure VF where
  cwd : String
  base : String
  path : String
deriving DecidableEq, Repr

/-- One directive match: the full matched span (`match[0]`) and the raw
captured path argument (`match[regexGroup]`). -/
structure Mtch where
  value : List Char
  arg : String
deriving DecidableEq, Repr

/-- The error outcomes of the engine. -/
inductive Err where
  | dependencyNotFound (path : String)
  | hookFailure (msg : String)
  | readFailed (path : String)
  | invalidInput
  | outOfFuel
deriving DecidableEq, Repr

/-- The apostrophe character. -/
def apos : Char := Char.ofNat 39

/-- The user-visible message attached to each error by the source
(`PluginError` message text). -/
def errMessage : Err → List Char
  | .dependencyNotFound p =>
    "The path \"".toList ++ p.toList ++ "\" doesn".toList ++ [apos] ++ "t exist!".toList
  | .hookFailure m => m.toList
  | .readFailed p => p.toList
  | .invalidInput => "The file path is undefined.".toList
  | .outOfFuel => []

/-- The dependency cache: encoded dependency path to the (insertion-ordered)
set of encoded-referencing-path / entity pairs (`FileCache` in the source). -/
abbrev Cache := List (String × List (String × VF))

/-- An externally supplied transformation hook, already drained to text:
`none` models the hook pipeline yielding a null file, `some` a materialized
text result, `.error` a hook failure. -/
abbrev Hook := String → Except String (Option (List Char))

/-- The external collaborators of the engine: the configured regular
expression (`scan` models `content.matchAll(pattern)` with group capture),
Node `path` functions, base64 encoding and the filesystem. -/
structure Env where
  scan : List Char → List Mtch
  parseDir : String → String
  parseBase : String → String
  joinPath : String → String → String
  resolvePath : String → String → String
  resolveAbs : String → String
  encode : String → String
  fsFile : String → Option (List Char)
  fsDir : String → Option (List String)
  defaultCwd : String

/-- `Importer.appendCache`: registers the referencing entity `prm` as a
dependent of `dpnPath` (base64-keyed, insertion idempotent). -/
def appendCache (env : Env) (c : Cache) (dpnPath : String) (prm : VF) : Cache :=
  let dKey := env.encode dpnPath
  let f : VF := ⟨prm.cwd, prm.base, env.resolveAbs prm.path⟩
  let pKey := env.encode f.path
  match lookupA c dKey with
  | none => c ++ [(dKey, [(pKey, f)])]
  | some m =>
    if (lookupA m pKey).isSome then c
    else setA c dKey (m ++ [(pKey, f)])

/-- `Importer.normalizePath`: when `requireExtension` is false, lists the
parent directory and picks the first entry whose name starts with the parsed
base; `.error` models the directory listing itself throwing. -/
def normalizePath (env : Env) (o : Opts) (path : String) :
    Except Unit (Option String) :=
  if !o.requireExtension then
    match env.fsDir (env.parseDir path) with
    | none => .error ()
    | some entries =>
      match entries.find? (fun b => strStartsWith b (env.parseBase path)) with
      | none => .ok none
      | some m => .ok (some (env.joinPath (env.parseDir path) m))
  else .ok (some path)

/-- `Importer.readFile`: normalize, then read; every failure inside the
`try` surfaces as the `DependencyNotFound` error for the requested path
(a `null` normalization result is coalesced to `""` before the read). -/
def readFile (env : Env) (o : Opts) (path : String) : Except Err (List Char) :=
  match normalizePath env o path with
  | .error _ => .error (.dependencyNotFound path)
  | .ok r =>
    match env.fsFile (r.getD "") with
    | none => .error (.dependencyNotFound path)
    | some c => .ok c

/-- `Importer.getDependencyContent`: the hook takes precedence when supplied;
a null hook result is coalesced to the empty string (`?? ""`). -/
def getDependencyContent (env : Env) (o : Opts) (hook : Option Hook)
    (path : String) : Except Err (List Char) :=
  match hook with
  | some t =>
    match t path with
    | .error m => .error (.hookFailure m)
    | .ok none => .ok []
    | .ok (some s) => .ok s
  | none => readFile env o path

/-- The match-processing loop of `Importer.replace`, over the match list that
`matchAll` computed on the original content.  `nest` performs the
recursive-import nested substitution (fresh stack, `new File({path})`). -/
def replaceLoop (env : Env) (o : Opts) (hook : Option Hook)
    (nest : String → List Char → Cache → Except Err (List Char × Cache))
    (f : VF) :
    List Mtch → List Char → List String → Cache →
    Except Err (List Char × List String × Cache)
  | [], content, stack, cache => .ok (content, stack, cache)
  | m :: ms, content, stack, cache =>
    let dPath := env.resolvePath (env.parseDir f.path) (trimStr m.arg)
    if o.importOnce && stack.contains dPath then
      replaceLoop env o hook nest f ms (replaceFirst content m.value []) stack cache
    else
      let stack1 := if o.importOnce then stack ++ [dPath] else stack
      match getDependencyContent env o hook dPath with
      | .error e => .error e
      | .ok d0 =>
        if o.importRecursively then
          match nest dPath d0 cache with
          | .error e => .error e
          | .ok (d1, cache2) =>
            replaceLoop env o hook nest f ms (replaceFirst content m.value d1)
              stack1 (appendCache env cache2 dPath f)
        else
          replaceLoop env o hook nest f ms (replaceFirst content m.value d0)
            stack1 (appendCache env cache dPath f)

/-- `Importer.replace`, with an explicit recursion-depth budget: each
recursive-import nesting level consumes one unit of `fuel` and starts from a
fresh resolve stack with a `new File({path: dPath})` referencing entity
(vinyl defaults `cwd`/`base` to the process working directory). -/
def replaceDepth (env : Env) (o : Opts) (hook : Option Hook) :
    Nat → VF → List Char → List String → Cache →
    Except Err (List Char × List String × Cache)
  | 0, f, content, stack, cache =>
    replaceLoop env o hook (fun _ _ _ => .error .outOfFuel) f
      (env.scan content) content stack cache
  | n + 1, f, content, stack, cache =>
    replaceLoop env o hook
      (fun dPath d k =>
        match replaceDepth env o hook n ⟨env.defaultCwd, env.defaultCwd, dPath⟩
            d [] k with
        | .error e => .error e
        | .ok (c, _, k2) => .ok (c, k2))
      f (env.scan content) content stack cache

/-- `Importer.resolveBuffer`: one buffered resolution pass over the full
content, starting from a fresh resolve stack. -/
def resolveBufferM (fuel : Nat) (env : Env) (o : Opts) (hook : Option Hook)
    (f : VF) (content : List Char) (cache : Cache) :
    Except Err (List Char × Cache) :=
  match replaceDepth env o hook fuel f content [] cache with
  | .error e => .error e
  | .ok (c, _, k) => .ok (c, k)

/-- The chunk loop of `Importer.resolveStream`: every chunk goes through
`replace` with the one shared stream resolve stack. -/
def resolveStreamGo (fuel : Nat) (env : Env) (o : Opts) (hook : Option Hook)
    (f : VF) :
    List (List Char) → List String → Cache →
    Except Err (List (List Char) × List String × Cache)
  | [], stack, cache => .ok ([], stack, cache)
  | ch :: rest, stack, cache =>
    match replaceDepth env o hook fuel f ch stack cache with
    | .error e => .error e
    | .ok (out, stack1, cache1) =>
      match resolveStreamGo fuel env o hook f rest stack1 cache1 with
      | .error e => .error e
      | .ok (outs, st2, c2) => .ok (out :: outs, st2, c2)

/-- `Importer.resolveStream` over a whole chunk sequence: the shared stream
stack starts empty for a fresh file and is reset when the sequence ends; the
downstream consumer sees the concatenation of the emitted chunks. -/
def resolveStreamM (fuel : Nat) (env : Env) (o : Opts) (hook : Option Hook)
    (f : VF) (chunks : List (List Char)) (cache : Cache) :
    Except Err (List Char × Cache) :=
  match resolveStreamGo fuel env o hook f chunks [] cache with
  | .error e => .error e
  | .ok (outs, _, c) => .ok (outs.flatten, c)

/-- The content view of a pipeline file: a full byte buffer, a chunked byte
stream, or a read stream piped through the resolver (produced lazily by
`resolveStreamRef`).  Text-level model, as everywhere in this file. -/
inductive Contents where
  | buf (data : List Char)
  | stream (chunks : List (List Char))
  | piped (path : String)
deriving DecidableEq, Repr

/-- A pipeline (vinyl) file as the entry points receive and emit it. -/
structure InFile where
  cwd : String
  base : String
  path : Option String
  contents : Option Contents
deriving DecidableEq, Repr

/-- Outcome of `Importer.validate`. -/
inductive Validated where
  | nullPass
  | invalid
  | proceed (p : String)
deriving DecidableEq, Repr

/-- `Importer.validate`: a null content payload is passed through
(`cb(null, file)`), a defined payload without a path is a fatal error
(`The file path is undefined.`), anything else proceeds. -/
def validateM (file : InFile) : Validated :=
  match file.contents with
  | none => .nullPass
  | some _ =>
    match file.path with
    | none => .invalid
    | some p => .proceed p

/-- `Importer.execute` applied to one incoming file: validation, then the
buffered or streaming executor on the file's contents; the transformed file
is pushed downstream, or the error surfaces with no output for that file. -/
def executeM (fuel : Nat) (env : Env) (o : Opts) (hook : Option Hook)
    (file : InFile) (cache : Cache) : Except Err (List InFile × Cache) :=
  match validateM file with
  | .nullPass => .ok ([file], cache)
  | .invalid => .error .invalidInput
  | .proceed p =>
    match file.contents with
    | some (.buf b) =>
      match resolveBufferM fuel env o hook ⟨file.cwd, file.base, p⟩ b cache with
      | .error e => .error e
      | .ok (c, k) => .ok ([{ file with contents := some (.buf c) }], k)
    | some (.stream chs) =>
      match resolveStreamM fuel env o hook ⟨file.cwd, file.base, p⟩ chs cache with
      | .error e => .error e
      | .ok (c, k) => .ok ([{ file with contents := some (.stream [c]) }], k)
    | _ => .ok ([file], cache)

/-- `Importer.resolveBufferRef`: re-open a cached dependent from disk
(`afs.readFile` directly, no extension inference) and resolve it buffered,
with no transformation hook. -/
def resolveBufferRefM (fuel : Nat) (env : Env) (o : Opts) (f : VF)
    (cache : Cache) : Except Err ((VF × List Char) × Cache) :=
  match env.fsFile f.path with
  | none => .error (.readFailed f.path)
  | some raw =>
    match resolveBufferM fuel env o none ⟨f.cwd, f.base, f.path⟩ raw cache with
    | .error e => .error e
    | .ok (c, k) => .ok ((f, c), k)

/-- `Importer.iterateCache`'s loop body for buffered dependents, threading
the cache through each re-resolution. -/
def iterateCacheB (fuel : Nat) (env : Env) (o : Opts) :
    List (String × VF) → Cache → Except Err (List (VF × List Char) × Cache)
  | [], cache => .ok ([], cache)
  | e :: rest, cache =>
    match resolveBufferRefM fuel env o e.snd cache with
    | .error err => .error err
    | .ok (g, k) =>
      match iterateCacheB fuel env o rest k with
      | .error err => .error err
      | .ok (l, k2) => .ok (g :: l, k2)

/-- `Importer.updateDependency` applied to one incoming primary file:
validation, cached-dependent lookup, re-resolution, then emission.  In
buffered mode `dependencyOutput` selects dependents and/or the pass-through
primary; in streaming mode dependents (lazily piped re-resolutions) and the
primary are always emitted, the policy is not consulted. -/
def updateDependencyM (fuel : Nat) (env : Env) (o : Opts) (file : InFile)
    (cache : Cache) : Except Err (List InFile × Cache) :=
  match validateM file with
  | .nullPass => .ok ([file], cache)
  | .invalid => .error .invalidInput
  | .proceed p =>
    let entries := (lookupA cache (env.encode (env.resolveAbs p))).getD []
    match file.contents with
    | some (.buf _) =>
      match iterateCacheB fuel env o entries cache with
      | .error e => .error e
      | .ok (list, k) =>
        let deps := list.map (fun g =>
          ({ cwd := g.fst.cwd, base := g.fst.base, path := some g.fst.path,
             contents := some (.buf g.snd) } : InFile))
        .ok ((if o.dependencyOutput ≠ DepOutput.primary then deps else []) ++
             (if o.dependencyOutput ≠ DepOutput.dependant then [file] else []), k)
    | _ =>
      let deps := entries.map (fun e =>
        ({ cwd := e.snd.cwd, base := e.snd.base, path := some e.snd.path,
           contents := some (.piped e.snd.path) } : InFile))
      .ok (deps ++ [file], cache)

/-- `matchAll` of a literal pattern: left-to-right non-overlapping
occurrences of the literal span `v` in the content, each capturing `a`
(models a configured regex such as a plain quoted-literal directive with one
capture group).  `skip` counts characters of a found span still to pass. -/
def scanLitGo (v : List Char) (a : String) : List Char → Nat → List Mtch
  | [], _ => []
  | _ :: t, skip + 1 => scanLitGo v a t skip
  | c :: t, 0 =>
    if !v.isEmpty && v.isPrefixOf (c :: t) then
      ⟨v, a⟩ :: scanLitGo v a t (v.length - 1)
    else scanLitGo v a t 0

/-- All matches of the literal pattern `v` (capturing `a`) in a content. -/
def scanLit (v : List Char) (a : String) (s : List Char) : List Mtch :=
  scanLitGo v a s 0

/-- Directory part of a slash-separated absolute path (model of
`Path.parse(p).dir` for the concrete environments). -/
def parseDirS (s : String) : String :=
  String.mk (((s.toList.reverse.dropWhile (fun c => c ≠ Char.ofNat 47)).drop 1).reverse)

/-- Final segment of a slash-separated path (model of `Path.parse(p).base`). -/
def parseBaseS (s : String) : String :=
  String.mk ((s.toList.reverse.takeWhile (fun c => c ≠ Char.ofNat 47)).reverse)

/-- Model of `Path.resolve(dir, arg)` for the concrete environments:
absolute arguments win, `./`-prefixed and bare relative arguments join onto
the directory. -/
def pathResolve (d a : String) : String :=
  if strStartsWith a "/" then a
  else if strStartsWith a "./" then d ++ "/" ++ String.mk (a.toList.drop 2)
  else d ++ "/" ++ a

/-- Model of one-argument `Path.resolve` for the concrete environments. -/
def resolveAbsS (p : String) : String :=
  if strStartsWith p "/" then p else "/cwd/" ++ p

/-- Concrete environment builder: Node path behaviour as above, real base64
keys, and the given scanner and filesystem. -/
def mkEnv (scan : List Char → List Mtch) (fsFile : String → Option (List Char))
    (fsDir : String → Option (List String)) : Env :=
  { scan := scan, parseDir := parseDirS, parseBase := parseBaseS,
    joinPath := fun d b => d ++ "/" ++ b, resolvePath := pathResolve,
    resolveAbs := resolveAbsS, encode := encodeB64,
    fsFile := fsFile, fsDir := fsDir, defaultCwd := "/cwd" }

/-- The documented default configuration. -/
def optsDef : Opts :=
  { importOnce := true, importRecursively := false, dependencyOutput := .primary,
    disableLog := false, detailedLog := false, requireExtension := true }

/-- Defaults with recursive import enabled. -/
def optsRec : Opts := { optsDef with importRecursively := true }

/-- Defaults with extension inference enabled. -/
def optsNoExt : Opts := { optsDef with requireExtension := false }

/-- A filesystem-free environment for cache- and validation-level facts. -/
def envPlain : Env := mkEnv (fun _ => []) (fun _ => none) (fun _ => none)

/-- The directive span of the import-once example. -/
def vC1 : List Char := "@import \"./lib.txt\"".toList

/-- The dependency content of the import-once example. -/
def dC1 : List Char := "LIB".toList

/-- Environment of the import-once example: `/r/src.txt` imports
`/r/lib.txt` twice. -/
def envC1 : Env :=
  mkEnv (scanLit vC1 "./lib.txt")
    (fun p => if p = "/r/lib.txt" then some dC1 else none)
    (fun _ => none)

/-- Referencing file of the import-once example. -/
def fC1 : VF := ⟨"/cw", "/cw", "/r/src.txt"⟩

/-- Content of the import-once example: the same directive twice. -/
def contentC1 : List Char := vC1 ++ "\n".toList ++ vC1 ++ "\nS".toList

/-- The directive span of the self-import cycle example. -/
def vC2 : List Char := "@import \"./a.txt\"".toList

/-- Content of `/r/a.txt` in the cycle example: exactly its own directive. -/
def contentC2 : List Char := vC2

/-- Environment of the cycle example: `/r/a.txt` imports itself. -/
def envC2 : Env :=
  mkEnv (scanLit vC2 "./a.txt")
    (fun p => if p = "/r/a.txt" then some contentC2 else none)
    (fun _ => none)

/-- The self-importing file of the cycle example (vinyl defaults for
`cwd`/`base`, so the nested `new File({path})` entity coincides with it). -/
def fC2 : VF := ⟨"/cwd", "/cwd", "/r/a.txt"⟩

/-- The recursive-import nesting continuation at depth `n` over `envC2`. -/
def nestC2 (n : Nat) : String → List Char → Cache → Except Err (List Char × Cache) :=
  fun dPath d k =>
    match replaceDepth envC2 optsRec none n ⟨"/cwd", "/cwd", dPath⟩ d [] k with
    | .error e => .error e
    | .ok (c, _, k2) => .ok (c, k2)

/-- Divergence of the substitution engine on the self-import cycle: at every
recursion-depth budget the pass runs out of budget instead of completing. -/
def c2Diverges : Prop :=
  ∀ n : Nat, replaceDepth envC2 optsRec none n fC2 contentC2 [] [] = .error .outOfFuel

/-- The directive span of the mode-equivalence example. -/
def vC3 : List Char := "@import \"a\"".toList

/-- Environment of the mode-equivalence example: the dependency `/r/a`
contains, verbatim, the directive text itself. -/
def envC3 : Env :=
  mkEnv (scanLit vC3 "a")
    (fun p => if p = "/r/a" then some vC3 else none)
    (fun _ => none)

/-- Referencing file of the mode-equivalence example. -/
def fC3 : VF := ⟨"/cw", "/cw", "/r/src.txt"⟩

/-- Content of the mode-equivalence example: the directive twice, separated
by a newline. -/
def contentC3 : List Char := vC3 ++ "\n".toList ++ vC3

/-- A chunking of `contentC3` that splits no directive. -/
def chunksC3 : List (List Char) := [vC3 ++ "\n".toList, vC3]

/-- Environment of the extension-inference example: `/d/a.txt` and
`/d/a.txt.bak` both exist, the directory listing of `/d` shows only the
latter, and `/e` contains no matching entry. -/
def envC4 : Env :=
  mkEnv (fun _ => [])
    (fun p =>
      if p = "/d/a.txt" then some "X".toList
      else if p = "/d/a.txt.bak" then some "Y".toList
      else none)
    (fun p =>
      if p = "/d" then some ["a.txt.bak"]
      else if p = "/e" then some ["zzz"]
      else none)

/-- Environment of the dependency-output example: two cached dependents of
`/r/lib.txt`, each readable and directive-free. -/
def envC5 : Env :=
  mkEnv (fun _ => [])
    (fun p =>
      if p = "/r/d1.txt" then some "D1".toList
      else if p = "/r/d2.txt" then some "D2".toList
      else none)
    (fun _ => none)

/-- First cached dependent of the dependency-output example. -/
def fC5a : VF := ⟨"/cw", "/cw", "/r/d1.txt"⟩

/-- Second cached dependent of the dependency-output example. -/
def fC5b : VF := ⟨"/cw", "/cw", "/r/d2.txt"⟩

/-- The dependency cache of the dependency-output example. -/
def cacheC5 : Cache :=
  [(encodeB64 "/r/lib.txt",
    [(encodeB64 "/r/d1.txt", fC5a), (encodeB64 "/r/d2.txt", fC5b)])]

/-- The primary file of the dependency-output example (buffered). -/
def fileC5 : InFile := ⟨"/cw", "/cw", some "/r/lib.txt", some (.buf "L".toList)⟩

/-- The directive span of the missing-dependency example. -/
def vC6 : List Char := "@import \"./x.txt\"".toList

/-- Environment of the missing-dependency example: no file exists. -/
def envC6 : Env := mkEnv (scanLit vC6 "./x.txt") (fun _ => none) (fun _ => none)

/-- Referencing file of the missing-dependency example. -/
def fC6 : VF := ⟨"/cw", "/cw", "/r/src.txt"⟩

/-- The directive span of the null-yielding-hook example. -/
def vC9 : List Char := "@import \"./lib.txt\"".toList

/-- Environment of the null-yielding-hook example. -/
def envC9 : Env :=
  mkEnv (scanLit vC9 "./lib.txt") (fun _ => none) (fun _ => none)

/-- A transformation hook whose pipeline yields a null file for every
dependency. -/
def hookC9 : Hook := fun _ => .ok none

/-- Referencing file of the null-yielding-hook example. -/
def fC9 : VF := ⟨"/cw", "/cw", "/r/src.txt"⟩

/-- Content of the null-yielding-hook example. -/
def contentC9 : List Char := "A".toList ++ vC9 ++ "B".toList

/-- The nine configuration keys of the `defaults` object. -/
inductive OptKey where
  | regexPattern
  | regexGroup
  | encoding
  | importOnce
  | importRecursively
  | dependencyOutput
  | disableLog
  | detailedLog
  | requireExtension
deriving DecidableEq, Repr

/-- A JS value stored under a configuration key (`.undef` is a key present
with the value `undefined`, which `hasOwnProperty` still reports). -/
inductive OptVal where
  | b (v : Bool)
  | n (v : Nat)
  | s (v : String)
  | rgx (source : String)
  | dep (v : DepOutput)
  | undef
deriving DecidableEq, Repr

/-- The `defaults` object of the source. -/
def defaultsMap : OptKey → OptVal
  | .regexPattern => .rgx "@\x7b0,1\x7dimport\\s+[\"']\\s*(.*)\\s*[\"'];\x7b0,1\x7d"
  | .regexGroup => .n 1
  | .encoding => .s "utf-8"
  | .importOnce => .b true
  | .importRecursively => .b false
  | .dependencyOutput => .dep .primary
  | .disableLog => .b false
  | .detailedLog => .b false
  | .requireExtension => .b true

/-- The `Importer` constructor's defaults-merging loop: for every key of
`defaults`, if the caller's options object does not own the key
(`hasOwnProperty`), the default is written into that same object. -/
def constructorMerge (options : OptKey → Option OptVal) :
    OptKey → Option OptVal :=
  fun k =>
    match options k with
    | some v => some v
    | none => some (defaultsMap k)

/-- A caller options object supplying only a falsy `importOnce`. -/
def optsSuppliedC10 : OptKey → Option OptVal :=
  fun k => match k with
  | .importOnce => some (.b false)
  | _ => none

lemma replaceFirst_eq_of_firstMatchAt :
    ∀ (k : Nat) (s pat rep : List Char), firstMatchAt s pat k →
      replaceFirst s pat rep = s.take k ++ rep ++ s.drop (k + pat.length) := by
  intro k
  induction k with
  | zero =>
    intro s pat rep h
    obtain ⟨h1, _⟩ := h
    rw [List.drop_zero] at h1
    cases s with
    | nil => simp [replaceFirst, h1]
    | cons c t => simp [replaceFirst, h1]
  | succ k ih =>
    intro s pat rep h
    obtain ⟨h1, h2⟩ := h
    cases s with
    | nil =>
      exfalso
      rw [List.drop_nil] at h1
      cases pat with
      | nil => exact h2 0 (Nat.succ_pos k) (by simp [List.isPrefixOf])
      | cons q qt => simp [List.isPrefixOf] at h1
    | cons c t =>
      have hc : ¬ (pat.isPrefixOf (c :: t) = true) := by
        have h0 := h2 0 (Nat.succ_pos k)
        simpa using h0
      have ht : firstMatchAt t pat k := by
        refine ⟨by simpa using h1, ?_⟩
        intro i hi
        have := h2 (i + 1) (by omega)
        simpa using this
      have harith : k + 1 + pat.length = (k + pat.length) + 1 := by omega
      simp only [replaceFirst, if_neg hc, ih t pat rep ht, List.take_succ_cons,
        harith, List.drop_succ_cons, List.cons_append]

lemma replaceFirst_boundary (x v y rep : List Char)
    (h : firstMatchAt (x ++ (v ++ y)) v x.length) :
    replaceFirst (x ++ (v ++ y)) v rep = x ++ (rep ++ y) := by
  rw [replaceFirst_eq_of_firstMatchAt x.length _ _ _ h]
  have ht : (x ++ (v ++ y)).take x.length = x := List.take_left x (v ++ y)
  have hd : (x ++ (v ++ y)).drop (x.length + v.length) = y := by
    rw [← List.length_append, ← List.append_assoc]
    exact List.drop_left (x ++ v) y
  rw [ht, hd, List.append_assoc]

lemma occursSub_append_mid (pat x y : List Char) :
    occursSub pat (x ++ pat ++ y) = true := by
  induction x with
  | nil =>
    rw [List.nil_append]
    have hpre : pat.isPrefixOf (pat ++ y) = true := by
      rw [List.isPrefixOf_iff_prefix]
      exact List.prefix_append pat y
    cases hp : pat ++ y with
    | nil =>
      have hpat : pat = [] := by
        cases pat with
        | nil => rfl
        | cons a t => simp at hp
      subst hpat
      simp [occursSub, List.isPrefixOf]
    | cons c t =>
      rw [hp] at hpre
      simp [occursSub, hpre]
  | cons c t ih =>
    show (pat.isPrefixOf (c :: (t ++ pat ++ y)) || occursSub pat (t ++ pat ++ y)) = true
    rw [ih, Bool.or_true]

lemma replaceLoop_nest_irrel (env : Env) (o : Opts) (hook : Option Hook)
    (f : VF)
    (n1 n2 : String → List Char → Cache → Except Err (List Char × Cache))
    (hrec : o.importRecursively = false) :
    ∀ (ms : List Mtch) (content : List Char) (stack : List String) (cache : Cache),
      replaceLoop env o hook n1 f ms content stack cache =
      replaceLoop env o hook n2 f ms content stack cache := by
  intro ms
  induction ms with
  | nil => intro content stack cache; rfl
  | cons m ms ih =>
    intro content stack cache
    simp only [replaceLoop, hrec, Bool.false_eq_true, if_false]
    split
    · exact ih _ _ _
    · cases getDependencyContent env o hook
        (env.resolvePath (env.parseDir f.path) (trimStr m.arg)) with
      | error e => rfl
      | ok d0 => exact ih _ _ _

lemma replaceDepth_nonrec (env : Env) (o : Opts) (hook : Option Hook)
    (hrec : o.importRecursively = false) (fuel : Nat) (f : VF)
    (content : List Char) (stack : List String) (cache : Cache) :
    replaceDepth env o hook fuel f content stack cache =
      replaceLoop env o hook (fun _ _ _ => .error .outOfFuel) f
        (env.scan content) content stack cache := by
  cases fuel with
  | zero => rfl
  | succ n =>
    exact replaceLoop_nest_irrel env o hook f _ _ hrec _ _ _ _

lemma getDependencyContent_ne_outOfFuel (env : Env) (o : Opts)
    (hook : Option Hook) (p : String) :
    getDependencyContent env o hook p ≠ .error .outOfFuel := by
  unfold getDependencyContent readFile
  cases hook with
  | none =>
    cases normalizePath env o p with
    | error u => simp
    | ok r =>
      cases hf : env.fsFile (r.getD "") with
      | none => simp [hf]
      | some c => simp [hf]
  | some t =>
    cases htp : t p with
    | error m => simp [htp]
    | ok r => cases r <;> simp [htp]

lemma replaceLoop_nonrec_ne_outOfFuel (env : Env) (o : Opts)
    (hook : Option Hook) (f : VF)
    (nest : String → List Char → Cache → Except Err (List Char × Cache))
    (hrec : o.importRecursively = false) :
    ∀ (ms : List Mtch) (content : List Char) (stack : List String) (cache : Cache),
      replaceLoop env o hook nest f ms content stack cache ≠ .error .outOfFuel := by
  intro ms
  induction ms with
  | nil => intro content stack cache; simp [replaceLoop]
  | cons m ms ih =>
    intro content stack cache
    simp only [replaceLoop, hrec, Bool.false_eq_true, if_false]
    split
    · exact ih _ _ _
    · cases hg : getDependencyContent env o hook
        (env.resolvePath (env.parseDir f.path) (trimStr m.arg)) with
      | error e =>
        intro hcontra
        have he : e = Err.outOfFuel := by injection hcontra
        exact getDependencyContent_ne_outOfFuel env o hook _ (by rw [hg, he])
      | ok d0 => exact ih _ _ _

lemma lookupA_append_of_none {β : Type} (c l : List (String × β)) (k : String)
    (h : lookupA c k = none) : lookupA (c ++ l) k = lookupA l k := by
  induction c with
  | nil => simp
  | cons e t ih =>
    by_cases he : e.fst = k
    · exfalso
      simp [lookupA, List.find?, he] at h
    · have ht : lookupA t k = none := by
        simpa [lookupA, List.find?, he] using h
      simpa [lookupA, List.find?, he] using ih ht

lemma lookupA_setA_self {β : Type} :
    ∀ (c : List (String × β)) (k : String) (v : β) (m : β),
      lookupA c k = some m → lookupA (setA c k v) k = some v := by
  intro c
  induction c with
  | nil => intro k v m h; simp [lookupA] at h
  | cons e t ih =>
    intro k v m h
    by_cases he : e.fst = k
    · simp [setA, he, lookupA, List.find?]
    · have ht : lookupA t k = some m := by
        simpa [lookupA, List.find?, he] using h
      simpa [setA, he, lookupA, List.find?] using ih k v m ht

lemma countK_eq_zero_of_lookupA_none {β : Type} :
    ∀ (l : List (String × β)) (k : String),
      lookupA l k = none → countK l k = 0 := by
  intro l
  induction l with
  | nil => intro k _; rfl
  | cons e t ih =>
    intro k h
    by_cases he : e.fst = k
    · exfalso; simp [lookupA, List.find?, he] at h
    · have ht : lookupA t k = none := by
        simpa [lookupA, List.find?, he] using h
      simpa [countK, List.filter, he] using ih k ht

lemma countK_pos_of_lookupA_some {β : Type} :
    ∀ (l : List (String × β)) (k : String) (m : β),
      lookupA l k = some m → 1 ≤ countK l k := by
  intro l
  induction l with
  | nil => intro k m h; simp [lookupA] at h
  | cons e t ih =>
    intro k m h
    by_cases he : e.fst = k
    · simp [countK, List.filter, he]
    · have ht : lookupA t k = some m := by
        simpa [lookupA, List.find?, he] using h
      simpa [countK, List.filter, he] using ih k m ht

lemma countK_append_self {β : Type} (l : List (String × β)) (k : String) (v : β) :
    countK (l ++ [(k, v)]) k = countK l k + 1 := by
  simp [countK, List.filter_append]

lemma c6go (env : Env) (o : Opts) (f : VF)
    (nest : String → List Char → Cache → Except Err (List Char × Cache))
    (hrec : o.importRecursively = false) (hre : o.requireExtension = true) :
    ∀ (ms : List Mtch) (content : List Char) (stack : List String) (cache : Cache),
      (∀ q, q ∈ stack → (env.fsFile q).isSome = true) →
      (∃ m, m ∈ ms ∧
         env.fsFile (env.resolvePath (env.parseDir f.path) (trimStr m.arg)) = none) →
      ∃ p, env.fsFile p = none ∧
        replaceLoop env o none nest f ms content stack cache =
          .error (.dependencyNotFound p) := by
  intro ms
  induction ms with
  | nil =>
    intro content stack cache _ hex
    exact absurd hex (by simp)
  | cons m ms ih =>
    intro content stack cache hstack hex
    have hread : getDependencyContent env o none
        (env.resolvePath (env.parseDir f.path) (trimStr m.arg)) =
        match env.fsFile (env.resolvePath (env.parseDir f.path) (trimStr m.arg)) with
        | none => .error (.dependencyNotFound
            (env.resolvePath (env.parseDir f.path) (trimStr m.arg)))
        | some c => .ok c := by
      simp [getDependencyContent, readFile, normalizePath, hre]
    simp only [replaceLoop, hrec, Bool.false_eq_true, if_false]
    split
    · rename_i hc
      have hmem : env.resolvePath (env.parseDir f.path) (trimStr m.arg) ∈ stack := by
        have hand := (Bool.and_eq_true _ _).mp hc
        exact List.mem_of_elem_eq_true hand.2
      obtain ⟨m0, hm0, hfsm0⟩ := hex
      rcases List.mem_cons.mp hm0 with h0 | h0
      · exfalso
        have hsome := hstack _ hmem
        rw [h0] at hfsm0
        rw [hfsm0] at hsome
        simp at hsome
      · exact ih _ _ _ hstack ⟨m0, h0, hfsm0⟩
    · cases hf : env.fsFile (env.resolvePath (env.parseDir f.path) (trimStr m.arg)) with
      | none =>
        refine ⟨env.resolvePath (env.parseDir f.path) (trimStr m.arg), hf, ?_⟩
        rw [hread, hf]
      | some d =>
        rw [hread, hf]
        have hstack1 : ∀ q, q ∈ (if o.importOnce then
            stack ++ [env.resolvePath (env.parseDir f.path) (trimStr m.arg)]
            else stack) → (env.fsFile q).isSome = true := by
          intro q hq
          by_cases hio : o.importOnce = true
          · rw [if_pos hio] at hq
            rcases List.mem_append.mp hq with h0 | h0
            · exact hstack q h0
            · have hq2 : q = env.resolvePath (env.parseDir f.path) (trimStr m.arg) := by
                simpa using h0
              rw [hq2, hf]; rfl
          · rw [if_neg hio] at hq
            exact hstack q hq
        obtain ⟨m0, hm0, hfsm0⟩ := hex
        rcases List.mem_cons.mp hm0 with h0 | h0
        · exfalso
          rw [h0] at hfsm0
          rw [hfsm0] at hf
          exact Option.noConfusion hf
        · exact ih _ _ _ hstack1 ⟨m0, h0, hfsm0⟩

/-- Claim C7: inserting the same referencing entity into the dependency
cache twice for the same dependency path is idempotent, and after one
insertion the cached dependent set for the dependency contains the
referencing entity exactly once (given it contained it at most once
before, as every cache built by `appendCache` does). -/
theorem C7_appendCache_idempotent (env : Env) (c : Cache) (d : String) (P : VF)
    (h : countK ((lookupA c (env.encode d)).getD [])
        (env.encode (env.resolveAbs P.path)) ≤ 1) :
    appendCache env (appendCache env c d P) d P = appendCache env c d P ∧
    countK ((lookupA (appendCache env c d P) (env.encode d)).getD [])
        (env.encode (env.resolveAbs P.path)) = 1 := by
  cases hl : lookupA c (env.encode d) with
  | none =>
    have h1 : appendCache env c d P =
        c ++ [(env.encode d,
          [(env.encode (env.resolveAbs P.path),
            ⟨P.cwd, P.base, env.resolveAbs P.path⟩)])] := by
      simp only [appendCache, hl]
    have h2 : lookupA (appendCache env c d P) (env.encode d) =
        some [(env.encode (env.resolveAbs P.path),
          ⟨P.cwd, P.base, env.resolveAbs P.path⟩)] := by
      rw [h1, lookupA_append_of_none c _ _ hl]
      simp [lookupA, List.find?]
    constructor
    · have h3 : lookupA [(env.encode (env.resolveAbs P.path),
          (⟨P.cwd, P.base, env.resolveAbs P.path⟩ : VF))]
          (env.encode (env.resolveAbs P.path)) =
          some ⟨P.cwd, P.base, env.resolveAbs P.path⟩ := by
        simp [lookupA, List.find?]
      generalize hgen : appendCache env c d P = c1 at h2 ⊢
      simp only [appendCache, h2, h3, Option.isSome_some, if_true]
    · rw [h2]
      simp [countK, List.filter]
  | some m =>
    cases hpk : lookupA m (env.encode (env.resolveAbs P.path)) with
    | some v =>
      have h1 : appendCache env c d P = c := by
        simp only [appendCache, hl, hpk, Option.isSome_some, if_true]
      constructor
      · rw [h1, h1]
      · rw [h1, hl]
        have hle : countK m (env.encode (env.resolveAbs P.path)) ≤ 1 := by
          simpa [hl] using h
        have hge := countK_pos_of_lookupA_some m _ _ hpk
        simp only [Option.getD_some]
        omega
    | none =>
      have h1 : appendCache env c d P =
          setA c (env.encode d) (m ++ [(env.encode (env.resolveAbs P.path),
            ⟨P.cwd, P.base, env.resolveAbs P.path⟩)]) := by
        simp only [appendCache, hl, hpk, Option.isSome_none, Bool.false_eq_true,
          if_false]
      have h2 : lookupA (appendCache env c d P) (env.encode d) =
          some (m ++ [(env.encode (env.resolveAbs P.path),
            ⟨P.cwd, P.base, env.resolveAbs P.path⟩)]) := by
        rw [h1]
        exact lookupA_setA_self c _ _ m hl
      have h3 : lookupA (m ++ [(env.encode (env.resolveAbs P.path),
          (⟨P.cwd, P.base, env.resolveAbs P.path⟩ : VF))])
          (env.encode (env.resolveAbs P.path)) =
          some ⟨P.cwd, P.base, env.resolveAbs P.path⟩ := by
        rw [lookupA_append_of_none m _ _ hpk]
        simp [lookupA, List.find?]
      constructor
      · generalize hgen : appendCache env c d P = c1 at h2 ⊢
        simp only [appendCache, h2, h3, Option.isSome_some, if_true]
      · rw [h2, Option.getD_some, countK_append_self,
          countK_eq_zero_of_lookupA_none m _ hpk]

/-- Claim C7 witness: registering `/r/src.txt` as a dependent of
`/r/lib.txt` twice leaves the cache of the first registration unchanged,
and that cache holds the dependent exactly once. -/
theorem C7_witness :
    appendCache envPlain (appendCache envPlain [] "/r/lib.txt" fC1)
        "/r/lib.txt" fC1 =
      appendCache envPlain [] "/r/lib.txt" fC1 ∧
    countK ((lookupA (appendCache envPlain [] "/r/lib.txt" fC1)
        (envPlain.encode "/r/lib.txt")).getD [])
      (envPlain.encode (envPlain.resolveAbs fC1.path)) = 1 :=
  C7_appendCache_idempotent envPlain [] "/r/lib.txt" fC1 (by decide)

/-- Claim C8: every entry point first validates the incoming file: a null
content payload is passed through unchanged without error, and a defined
content payload with an undefined source path fails with the fatal
invalid-input error (message `The file path is undefined.`), emitting no
output for that file. -/
theorem C8_validation (fuel : Nat) (env : Env) (o : Opts) (hook : Option Hook)
    (file : InFile) (cache : Cache) :
    (file.contents = none →
      executeM fuel env o hook file cache = .ok ([file], cache) ∧
      updateDependencyM fuel env o file cache = .ok ([file], cache)) ∧
    (∀ c, file.contents = some c → file.path = none →
      executeM fuel env o hook file cache = .error .invalidInput ∧
      updateDependencyM fuel env o file cache = .error .invalidInput ∧
      errMessage .invalidInput = "The file path is undefined.".toList) := by
  constructor
  · intro hnull
    constructor
    · simp [executeM, validateM, hnull]
    · simp [updateDependencyM, validateM, hnull]
  · intro c hsome hpath
    refine ⟨?_, ?_, rfl⟩
    · simp [executeM, validateM, hsome, hpath]
    · simp [updateDependencyM, validateM, hsome, hpath]

/-- Claim C8 witness: a null file passes `execute` and `updateDependency`
through unchanged, and a buffered file without a path fails both with the
invalid-input error. -/
theorem C8_witness :
    executeM 0 envPlain optsDef none ⟨"/c", "/b", some "/p", none⟩ [] =
      .ok ([⟨"/c", "/b", some "/p", none⟩], []) ∧
    updateDependencyM 0 envPlain optsDef
        ⟨"/c", "/b", none, some (.buf "X".toList)⟩ [] =
      .error .invalidInput :=
  ⟨((C8_validation 0 envPlain optsDef none ⟨"/c", "/b", some "/p", none⟩ []).1
      rfl).1,
   (((C8_validation 0 envPlain optsDef none
      ⟨"/c", "/b", none, some (.buf "X".toList)⟩ []).2
      (.buf "X".toList) rfl rfl).2).1⟩

/-- Claim C10: after the constructor's defaults merge, every key absent
from the caller's options holds its documented default, and every supplied
key keeps its supplied value, even a falsy one. -/
theorem C10_constructor_merge (options : OptKey → Option OptVal) (k : OptKey) :
    (options k = none → constructorMerge options k = some (defaultsMap k)) ∧
    (∀ v, options k = some v → constructorMerge options k = some v) := by
  constructor
  · intro h
    simp [constructorMerge, h]
  · intro v h
    simp [constructorMerge, h]

/-- Claim C10 witness: a caller supplying only `importOnce: false` keeps
that falsy value (it is not overwritten by the default `true`), while the
unsupplied keys receive their documented defaults. -/
theorem C10_witness :
    constructorMerge optsSuppliedC10 OptKey.importOnce = some (.b false) ∧
    constructorMerge optsSuppliedC10 OptKey.importRecursively = some (.b false) ∧
    constructorMerge optsSuppliedC10 OptKey.encoding = some (.s "utf-8") ∧
    constructorMerge optsSuppliedC10 OptKey.requireExtension = some (.b true) :=
  ⟨(C10_constructor_merge optsSuppliedC10 OptKey.importOnce).2 (.b false) rfl,
   (C10_constructor_merge optsSuppliedC10 OptKey.importRecursively).1 rfl,
   (C10_constructor_merge optsSuppliedC10 OptKey.encoding).1 rfl,
   (C10_constructor_merge optsSuppliedC10 OptKey.requireExtension).1 rfl⟩

/-- Claim C3 counterexample: the same content, chunked without splitting
any directive, resolves to different output in buffered and in streaming
mode (the dependency file contains the directive text verbatim, so the
buffered whole-string first-occurrence replacement removes a different
span than the per-chunk replacement does). -/
theorem C3_counterexample :
    List.flatten chunksC3 = contentC3 ∧
    resolveBufferM 0 envC3 optsDef none fC3 contentC3 [] =
      .ok ("\n".toList ++ vC3,
        [(encodeB64 "/r/a", [(encodeB64 "/r/src.txt", ⟨"/cw", "/cw", "/r/src.txt"⟩)])]) ∧
    resolveStreamM 0 envC3 optsDef none fC3 chunksC3 [] =
      .ok (vC3 ++ "\n".toList,
        [(encodeB64 "/r/a", [(encodeB64 "/r/src.txt", ⟨"/cw", "/cw", "/r/src.txt"⟩)])]) ∧
    "\n".toList ++ vC3 ≠ vC3 ++ "\n".toList :=
  ⟨rfl, rfl, rfl, by decide⟩

/-- Claim C3 amended: buffered and streamed execution produce identical
resolved output whenever the whole content arrives as a single chunk (and
the stream's shared resolve stack starts fresh); over several chunks the
outputs can differ even when no directive is split. -/
theorem C3_single_chunk_equivalence (fuel : Nat) (env : Env) (o : Opts)
    (hook : Option Hook) (f : VF) (c : List Char) (cache : Cache) :
    resolveStreamM fuel env o hook f [c] cache =
      resolveBufferM fuel env o hook f c cache := by
  unfold resolveStreamM resolveBufferM resolveStreamGo
  cases h : replaceDepth env o hook fuel f c [] cache with
  | error e => simp
  | ok x =>
    obtain ⟨out, st, k⟩ := x
    simp [resolveStreamGo]

/-- Claim C2 counterexample: on the self-import cycle (`/r/a.txt` whose
only directive resolves to `/r/a.txt` itself), substitution with recursive
importing and import-once enabled exhausts every recursion-depth budget:
the nested fresh resolve stack never sees the outer push, so the recursion
never terminates. -/
theorem C2_counterexample : c2Diverges := by
  intro n
  induction n with
  | zero => rfl
  | succ n ih =>
    have hunfold : replaceDepth envC2 optsRec none (n + 1) fC2 contentC2 [] [] =
        replaceLoop envC2 optsRec none (nestC2 n) fC2
          (envC2.scan contentC2) contentC2 [] [] := rfl
    have hscan : envC2.scan contentC2 = [⟨vC2, "./a.txt"⟩] := rfl
    rw [hunfold, hscan]
    show (match nestC2 n "/r/a.txt" contentC2 [] with
          | .error e => (.error e : Except Err (List Char × List String × Cache))
          | .ok (d1, cache2) =>
            replaceLoop envC2 optsRec none (nestC2 n) fC2 []
              (replaceFirst contentC2 vC2 d1) ["/r/a.txt"]
              (appendCache envC2 cache2 "/r/a.txt" fC2)) = .error .outOfFuel
    have hn : nestC2 n "/r/a.txt" contentC2 [] = .error .outOfFuel := by
      show (match replaceDepth envC2 optsRec none n fC2 contentC2 [] [] with
            | .error e => (.error e : Except Err (List Char × Cache))
            | .ok (c, _, k2) => .ok (c, k2)) = .error .outOfFuel
      rw [ih]
    rw [hn]

/-- Claim C2 amended: with recursive import disabled the substitution pass
terminates — its result is independent of the recursion-depth budget and is
never the out-of-budget outcome.  With recursive import enabled, a cyclic
graph diverges (see the counterexample): each nesting level starts a fresh
resolve stack, so the resolve stack suppresses repeats only within one
level and provides no recursion-cycle protection. -/
theorem C2_nonrecursive_terminates (env : Env) (o : Opts) (hook : Option Hook)
    (f : VF) (content : List Char) (stack : List String) (cache : Cache)
    (n m : Nat) (hrec : o.importRecursively = false) :
    replaceDepth env o hook n f content stack cache =
      replaceDepth env o hook m f content stack cache ∧
    replaceDepth env o hook n f content stack cache ≠ .error .outOfFuel := by
  constructor
  · rw [replaceDepth_nonrec env o hook hrec n f content stack cache,
      replaceDepth_nonrec env o hook hrec m f content stack cache]
  · rw [replaceDepth_nonrec env o hook hrec n f content stack cache]
    exact replaceLoop_nonrec_ne_outOfFuel env o hook f _ hrec _ _ _ _

/-- Claim C2 amended witness: a concrete non-recursive pass gives the same
result at budgets 3 and 7 and never runs out of budget. -/
theorem C2_nonrecursive_witness :
    replaceDepth envC1 optsDef none 3 fC1 contentC1 [] [] =
      replaceDepth envC1 optsDef none 7 fC1 contentC1 [] [] ∧
    replaceDepth envC1 optsDef none 3 fC1 contentC1 [] [] ≠ .error .outOfFuel :=
  C2_nonrecursive_terminates envC1 optsDef none fC1 contentC1 [] [] 3 7 rfl

/-- Claim C4 counterexample: with extension inference enabled
(`requireExtension: false`), a path whose final segment already carries an
extension is *not* used as-is: the resolver still lists the parent
directory and follows the first entry extending the base name, reading
`/d/a.txt.bak` although `/d/a.txt` itself exists. -/
theorem C4_counterexample :
    parseBaseS "/d/a.txt" = "a.txt" ∧
    envC4.fsFile "/d/a.txt" = some "X".toList ∧
    readFile envC4 optsNoExt "/d/a.txt" = .ok "Y".toList ∧
    "Y".toList ≠ "X".toList :=
  ⟨rfl, rfl, rfl, by decide⟩

/-- Claim C4 amended: when `requireExtension` is false the resolver always
lists the parent directory — whether or not the final segment carries an
extension — and selects the first entry whose name starts with the parsed
base name; if no entry matches, resolution fails with the
dependency-not-found error, otherwise the selected entry is read. -/
theorem C4_inference_always (env : Env) (o : Opts) (p : String)
    (entries : List String)
    (hre : o.requireExtension = false)
    (hdir : env.fsDir (env.parseDir p) = some entries)
    (hempty : env.fsFile "" = none) :
    (entries.find? (fun b => strStartsWith b (env.parseBase p)) = none →
      readFile env o p = .error (.dependencyNotFound p)) ∧
    (∀ m, entries.find? (fun b => strStartsWith b (env.parseBase p)) = some m →
      readFile env o p =
        match env.fsFile (env.joinPath (env.parseDir p) m) with
        | some c => .ok c
        | none => .error (.dependencyNotFound p)) := by
  constructor
  · intro hfind
    simp [readFile, normalizePath, hre, hdir, hfind, hempty]
  · intro m hfind
    simp only [readFile, normalizePath, hre, Bool.not_false, if_true, hdir, hfind]
    cases hres : env.fsFile (env.joinPath (env.parseDir p) m) with
    | none => simp [hres]
    | some c => simp [hres]

/-- Claim C4 amended witness: a no-match directory listing fails with the
dependency-not-found error, and a listing whose first matching entry
extends an already-extended base name is followed. -/
theorem C4_witness :
    readFile envC4 optsNoExt "/e/q.txt" = .error (.dependencyNotFound "/e/q.txt") ∧
    readFile envC4 optsNoExt "/d/a.txt" =
      match envC4.fsFile (envC4.joinPath (envC4.parseDir "/d/a.txt") "a.txt.bak") with
      | some c => .ok c
      | none => .error (.dependencyNotFound "/d/a.txt") :=
  ⟨(C4_inference_always envC4 optsNoExt "/e/q.txt" ["zzz"] rfl rfl rfl).1 rfl,
   (C4_inference_always envC4 optsNoExt "/d/a.txt" ["a.txt.bak"] rfl rfl rfl).2
     "a.txt.bak" rfl⟩

/-- Claim C1: with import-once enabled, a buffered pass over content whose
two directives resolve to the same dependency path inlines the dependency
content exactly once (at the first directive), replaces the second
directive's text with the empty string, and the dependency cache gains
exactly one entry for that dependency, holding the referencing file once. -/
theorem C1_import_once (env : Env) (o : Opts) (fuel : Nat) (f : VF)
    (a v₁ b v₂ c d : List Char) (r₁ r₂ p : String) (cache : Cache)
    (ho : o.importOnce = true) (hrec : o.importRecursively = false)
    (hre : o.requireExtension = true)
    (hscan : env.scan (a ++ v₁ ++ b ++ v₂ ++ c) = [⟨v₁, r₁⟩, ⟨v₂, r₂⟩])
    (hp1 : env.resolvePath (env.parseDir f.path) (trimStr r₁) = p)
    (hp2 : env.resolvePath (env.parseDir f.path) (trimStr r₂) = p)
    (hfs : env.fsFile p = some d)
    (hm1 : firstMatchAt (a ++ v₁ ++ b ++ v₂ ++ c) v₁ a.length)
    (hm2 : firstMatchAt (a ++ d ++ b ++ v₂ ++ c) v₂ (a.length + d.length + b.length))
    (hcache : lookupA cache (env.encode p) = none) :
    resolveBufferM fuel env o none f (a ++ v₁ ++ b ++ v₂ ++ c) cache =
      .ok (a ++ d ++ b ++ c,
        cache ++ [(env.encode p,
          [(env.encode (env.resolveAbs f.path),
            ⟨f.cwd, f.base, env.resolveAbs f.path⟩)])]) := by
  have e1 : replaceFirst (a ++ v₁ ++ b ++ v₂ ++ c) v₁ d = a ++ d ++ b ++ v₂ ++ c := by
    have h := replaceFirst_boundary a v₁ (b ++ (v₂ ++ c)) d
      (by simpa [List.append_assoc] using hm1)
    simpa [List.append_assoc] using h
  have e2 : replaceFirst (a ++ d ++ b ++ v₂ ++ c) v₂ [] = a ++ d ++ b ++ c := by
    have hm2' : firstMatchAt ((a ++ (d ++ b)) ++ (v₂ ++ c)) v₂ (a ++ (d ++ b)).length := by
      simpa [List.append_assoc, List.length_append, Nat.add_assoc] using hm2
    have h := replaceFirst_boundary (a ++ (d ++ b)) v₂ c [] hm2'
    simpa [List.append_assoc] using h
  have hread : getDependencyContent env o none p = .ok d := by
    simp [getDependencyContent, readFile, normalizePath, hre, hfs]
  have hap : appendCache env cache p f =
      cache ++ [(env.encode p,
        [(env.encode (env.resolveAbs f.path),
          ⟨f.cwd, f.base, env.resolveAbs f.path⟩)])] := by
    simp only [appendCache, hcache]
  unfold resolveBufferM
  rw [replaceDepth_nonrec env o none hrec fuel f _ [] cache, hscan]
  simp only [replaceLoop, hp1, hp2, ho, hrec, hread, e1, e2, hap,
    List.contains_nil, Bool.and_false, Bool.true_and, Bool.false_eq_true,
    if_false, if_true, List.nil_append, List.contains_cons, beq_self_eq_true,
    Bool.true_or, Bool.and_true, Bool.or_true]

/-- Claim C1 witness: `/r/src.txt` importing `/r/lib.txt` twice yields one
inlined copy of the library, an empty second occurrence and a single cache
entry for the library holding the source file once. -/
theorem C1_witness :
    resolveBufferM 0 envC1 optsDef none fC1 contentC1 [] =
      .ok ("LIB\n\nS".toList,
        [(encodeB64 "/r/lib.txt",
          [(encodeB64 "/r/src.txt", ⟨"/cw", "/cw", "/r/src.txt"⟩)])]) := by
  have h := C1_import_once envC1 optsDef 0 fC1 [] vC1 ("\n".toList) vC1 ("\nS".toList)
    dC1 "./lib.txt" "./lib.txt" "/r/lib.txt" [] rfl rfl rfl (by decide) rfl rfl rfl
    (by decide) (by decide) rfl
  exact h

/-- Claim C9: when the supplied transformation hook's pipeline yields a
null file for a dependency, the engine treats the dependency content as the
empty string: the pass succeeds, the directive is replaced by nothing, and
no hook-failure or dependency-not-found error is raised. -/
theorem C9_null_hook_empty (env : Env) (o : Opts) (fuel : Nat) (hk : Hook)
    (f : VF) (a v b : List Char) (r p : String) (cache : Cache)
    (hrec : o.importRecursively = false)
    (hscan : env.scan (a ++ v ++ b) = [⟨v, r⟩])
    (hp : env.resolvePath (env.parseDir f.path) (trimStr r) = p)
    (hhk : hk p = .ok none)
    (hm : firstMatchAt (a ++ v ++ b) v a.length) :
    resolveBufferM fuel env o (some hk) f (a ++ v ++ b) cache =
      .ok (a ++ b, appendCache env cache p f) := by
  have e1 : replaceFirst (a ++ v ++ b) v [] = a ++ b := by
    have h := replaceFirst_boundary a v b []
      (by simpa [List.append_assoc] using hm)
    simpa [List.append_assoc] using h
  have hread : getDependencyContent env o (some hk) p = .ok [] := by
    simp [getDependencyContent, hhk]
  unfold resolveBufferM
  rw [replaceDepth_nonrec env o (some hk) hrec fuel f _ [] cache, hscan]
  simp only [replaceLoop, hp, hrec, hread, e1, List.contains_nil,
    Bool.and_false, Bool.false_eq_true, if_false, if_true]

/-- Claim C9 witness: with a hook yielding a null file, `A@import
"./lib.txt"B` resolves successfully to `AB` and the dependency is cached. -/
theorem C9_witness :
    resolveBufferM 0 envC9 optsDef (some hookC9) fC9 contentC9 [] =
      .ok ("AB".toList, appendCache envC9 [] "/r/lib.txt" fC9) := by
  have h := C9_null_hook_empty envC9 optsDef 0 hookC9 fC9 "A".toList vC9 "B".toList
    "./lib.txt" "/r/lib.txt" [] rfl (by decide) rfl rfl (by decide)
  exact h

/-- Claim C5: for a primary file with cached dependents, `updateDependency`
in buffered mode emits only the pass-through primary under policy
`primary`, only the re-resolved dependents under `dependant`, and the
dependents followed by the primary under `all`; in streaming mode it emits
all piped re-resolved dependents and the pass-through primary regardless of
the configured policy. -/
theorem C5_dependency_output (fuel : Nat) (env : Env) (o : Opts)
    (cwd base p : String) (bts : List Char) (chs : List (List Char))
    (cache : Cache) (list : List (VF × List Char)) (k : Cache)
    (hit : iterateCacheB fuel env o
        ((lookupA cache (env.encode (env.resolveAbs p))).getD []) cache =
        .ok (list, k)) :
    (o.dependencyOutput = .primary →
      updateDependencyM fuel env o ⟨cwd, base, some p, some (.buf bts)⟩ cache =
        .ok ([⟨cwd, base, some p, some (.buf bts)⟩], k)) ∧
    (o.dependencyOutput = .dependant →
      updateDependencyM fuel env o ⟨cwd, base, some p, some (.buf bts)⟩ cache =
        .ok (list.map (fun g =>
          (⟨g.fst.cwd, g.fst.base, some g.fst.path, some (.buf g.snd)⟩ : InFile)), k)) ∧
    (o.dependencyOutput = .all →
      updateDependencyM fuel env o ⟨cwd, base, some p, some (.buf bts)⟩ cache =
        .ok (list.map (fun g =>
          (⟨g.fst.cwd, g.fst.base, some g.fst.path, some (.buf g.snd)⟩ : InFile)) ++
          [⟨cwd, base, some p, some (.buf bts)⟩], k)) ∧
    (∀ o2 : Opts,
      updateDependencyM fuel env o2 ⟨cwd, base, some p, some (.stream chs)⟩ cache =
        .ok (((lookupA cache (env.encode (env.resolveAbs p))).getD []).map
          (fun e =>
            (⟨e.snd.cwd, e.snd.base, some e.snd.path, some (.piped e.snd.path)⟩ : InFile)) ++
          [⟨cwd, base, some p, some (.stream chs)⟩], cache)) := by
  refine ⟨?_, ?_, ?_, ?_⟩
  · intro hpol
    simp only [updateDependencyM, validateM, hit, hpol]
    simp
  · intro hpol
    simp only [updateDependencyM, validateM, hit, hpol]
    simp
  · intro hpol
    simp only [updateDependencyM, validateM, hit, hpol]
    simp
  · intro o2
    simp only [updateDependencyM, validateM]

/-- Claim C5 witness: a primary with two cached dependents emits exactly
the primary under `primary`, exactly the two re-resolved dependents under
`dependant`, all three under `all`, and in streaming mode the two piped
dependents plus the primary under the default (`primary`) policy. -/
theorem C5_witness :
    updateDependencyM 0 envC5 optsDef fileC5 cacheC5 = .ok ([fileC5], cacheC5) ∧
    updateDependencyM 0 envC5 { optsDef with dependencyOutput := .dependant }
        fileC5 cacheC5 =
      .ok ([⟨"/cw", "/cw", some "/r/d1.txt", some (.buf "D1".toList)⟩,
            ⟨"/cw", "/cw", some "/r/d2.txt", some (.buf "D2".toList)⟩], cacheC5) ∧
    updateDependencyM 0 envC5 { optsDef with dependencyOutput := .all }
        fileC5 cacheC5 =
      .ok ([⟨"/cw", "/cw", some "/r/d1.txt", some (.buf "D1".toList)⟩,
            ⟨"/cw", "/cw", some "/r/d2.txt", some (.buf "D2".toList)⟩, fileC5],
        cacheC5) ∧
    updateDependencyM 0 envC5 optsDef
        ⟨"/cw", "/cw", some "/r/lib.txt", some (.stream [" ".toList])⟩ cacheC5 =
      .ok ([⟨"/cw", "/cw", some "/r/d1.txt", some (.piped "/r/d1.txt")⟩,
            ⟨"/cw", "/cw", some "/r/d2.txt", some (.piped "/r/d2.txt")⟩,
            ⟨"/cw", "/cw", some "/r/lib.txt", some (.stream [" ".toList])⟩],
        cacheC5) := by
  have hit : iterateCacheB 0 envC5 optsDef
      ((lookupA cacheC5 (envC5.encode (envC5.resolveAbs "/r/lib.txt"))).getD [])
      cacheC5 = .ok ([(fC5a, "D1".toList), (fC5b, "D2".toList)], cacheC5) := by rfl
  have hitD : iterateCacheB 0 envC5 { optsDef with dependencyOutput := .dependant }
      ((lookupA cacheC5 (envC5.encode (envC5.resolveAbs "/r/lib.txt"))).getD [])
      cacheC5 = .ok ([(fC5a, "D1".toList), (fC5b, "D2".toList)], cacheC5) := by rfl
  have hitA : iterateCacheB 0 envC5 { optsDef with dependencyOutput := .all }
      ((lookupA cacheC5 (envC5.encode (envC5.resolveAbs "/r/lib.txt"))).getD [])
      cacheC5 = .ok ([(fC5a, "D1".toList), (fC5b, "D2".toList)], cacheC5) := by rfl
  refine ⟨?_, ?_, ?_, ?_⟩
  · exact (C5_dependency_output 0 envC5 optsDef "/cw" "/cw" "/r/lib.txt"
      "L".toList [" ".toList] cacheC5 _ _ hit).1 rfl
  · exact (C5_dependency_output 0 envC5 { optsDef with dependencyOutput := .dependant }
      "/cw" "/cw" "/r/lib.txt" "L".toList [" ".toList] cacheC5 _ _ hitD).2.1 rfl
  · exact (C5_dependency_output 0 envC5 { optsDef with dependencyOutput := .all }
      "/cw" "/cw" "/r/lib.txt" "L".toList [" ".toList] cacheC5 _ _ hitA).2.2.1 rfl
  · exact (C5_dependency_output 0 envC5 optsDef "/cw" "/cw" "/r/lib.txt"
      "L".toList [" ".toList] cacheC5 _ _ hit).2.2.2 optsDef

/-- Claim C6 counterexample: a pass whose directive resolves to the missing
`/r/x.txt` fails with the dependency-not-found error, but the error message
references only the dependency path — the referencing file's path
`/r/src.txt` does not occur in it, contrary to the claim. -/
theorem C6_counterexample :
    resolveBufferM 0 envC6 optsDef none fC6 vC6 [] =
      .error (.dependencyNotFound "/r/x.txt") ∧
    occursSub "/r/src.txt".toList
      (errMessage (.dependencyNotFound "/r/x.txt")) = false :=
  ⟨by rfl, by decide⟩

/-- Claim C6 amended: a resolution pass containing a directive whose
resolved path cannot be read fails as a whole with a dependency-not-found
error naming an unreadable dependency path (which occurs in the error
message); the caller receives an error and no resolved content.  The error
message does not include the referencing file's path. -/
theorem C6_missing_dependency (fuel : Nat) (env : Env) (o : Opts) (f : VF)
    (content : List Char) (cache : Cache)
    (hrec : o.importRecursively = false) (hre : o.requireExtension = true)
    (hfail : ∃ m, m ∈ env.scan content ∧
      env.fsFile (env.resolvePath (env.parseDir f.path) (trimStr m.arg)) = none) :
    ∃ p, env.fsFile p = none ∧
      resolveBufferM fuel env o none f content cache =
        .error (.dependencyNotFound p) ∧
      occursSub p.toList (errMessage (.dependencyNotFound p)) = true := by
  obtain ⟨p, hp, hloop⟩ := c6go env o f (fun _ _ _ => .error .outOfFuel) hrec hre
    (env.scan content) content [] cache (by simp) hfail
  refine ⟨p, hp, ?_, ?_⟩
  · unfold resolveBufferM
    rw [replaceDepth_nonrec env o none hrec fuel f content [] cache, hloop]
  · have h := occursSub_append_mid p.toList "The path \"".toList
      ("\" doesn".toList ++ [apos] ++ "t exist!".toList)
    simpa [errMessage, List.append_assoc] using h

/-- Claim C6 amended witness: the missing-dependency example fails with a
dependency-not-found error whose message names the unreadable path. -/
theorem C6_witness :
    ∃ p, envC6.fsFile p = none ∧
      resolveBufferM 0 envC6 optsDef none fC6 vC6 [] =
        .error (.dependencyNotFound p) ∧
      occursSub p.toList (errMessage (.dependencyNotFound p)) = true :=
  C6_missing_dependency 0 envC6 optsDef fC6 vC6 [] rfl rfl (by decide)

end GulpImporter
